import Mathlib

/-!
Shallow embedding of `src/collector.rs` of the lolbench benchmark collector.

The collector orchestrates a two-stage memoized pipeline per run-plan:
Stage A resolves or builds a binary hash (keyed by the run-plan), Stage B
resolves or executes-and-parses a measurement (keyed by binary hash, runner
and shield).  The storage module (`storage::{index, measurement, Entry,
Estimates, Statistic, StorageKey}`), the run-plan module (`RunPlan::build`,
`RunPlan::exec`) and the toolchain module are not part of the source tree;
where a definition embeds one of them it is modelled from the spec and says
so in its doc comment.  External effects (the build step, the benchmark
execution, the criterion output files, toolchain installation) are supplied
by an explicit environment `Env`; the directory-backed store is an explicit
`Storage` value threaded through every operation, and the external processes
invoked are recorded in an event trace.
-/

deriving instance DecidableEq for Except

namespace Lolbench

/-- Modelled from the spec: an opaque statistical summary record
(`storage::Statistic`); its numeric content is irrelevant to the collector,
only its storage/caching lifecycle matters, so it is one opaque field. -/
structure Statistic where
  val : Nat
deriving DecidableEq

/-- Modelled from the spec: a toolchain identifies a build configuration;
the collector only clones, compares and installs it. -/
abbrev Toolchain := String

/-- Modelled from the spec: the benchmark descriptor of a run-plan, with the
fields the collector reads: `runner`, `name` and `crate_name`. -/
structure Benchmark where
  runner : Option String
  name : String
  crate_name : String
deriving DecidableEq

/-- Modelled from the spec: an immutable run-plan (`run_plan::RunPlan`) with
the fields the collector reads: the benchmark descriptor, the shield
(isolation setting) and the optional toolchain. -/
structure RunPlan where
  benchmark : Benchmark
  shield : Option String
  toolchain : Option Toolchain
deriving DecidableEq

/-- Modelled from the spec: an opaque byte sequence identifying a built
artifact's content (`Vec<u8>` in the source). -/
abbrev BinHash := List Nat

/-- Modelled from the spec: `Estimates` is a map from metric name to a
statistical summary record (`BTreeMap<String, Statistic>`), embedded as an
association list kept in insertion structure; `Estimates.insert` and
`Estimates.extend` below give it the map semantics the collector uses. -/
abbrev Estimates := List (String × Statistic)

/-- Association-list lookup (first matching key), the read primitive shared
by the storage model and the `Estimates` map model. -/
def alookup {κ : Type} {α : Type} [DecidableEq κ] : List (κ × α) → κ → Option α
  | [], _ => none
  | (k, v) :: rest, k' => if k' = k then some v else alookup rest k'

/-- Modelled from the spec: `BTreeMap::insert` for the `Estimates` map: an
existing binding for the key is overwritten, otherwise the entry is added at
its ordered position. -/
def Estimates.insert : Estimates → String → Statistic → Estimates
  | [], k, v => [(k, v)]
  | (k0, v0) :: rest, k, v =>
    if k < k0 then (k, v) :: (k0, v0) :: rest
    else if k = k0 then (k, v) :: rest
    else (k0, v0) :: Estimates.insert rest k v

/-- Modelled from the spec: `BTreeMap::extend` for the `Estimates` map:
every entry of the second map is inserted into the first, later entries
overwriting existing bindings for the same key. -/
def Estimates.extend (m other : Estimates) : Estimates :=
  List.foldl (fun acc kv => Estimates.insert acc kv.1 kv.2) m other

/-- Translated from `src/collector.rs`: the two error kinds of the
collector, each carrying a human-readable message. -/
inductive ErrorKind where
  | Run (msg : String)
  | PostProcess (msg : String)
deriving DecidableEq

/-- Translated from `src/collector.rs`: the collector's error record with
its retry bookkeeping (`num_retries`, `max_retries`, `retryable`). -/
structure Error where
  kind : ErrorKind
  num_retries : Nat
  max_retries : Nat
  retryable : Bool
deriving DecidableEq

/-- Translated from `src/collector.rs`: `DEFAULT_MAX_RETRIES`. -/
def DEFAULT_MAX_RETRIES : Nat := 2

/-- Modelled from the spec: the contents stored under a measurement key
(`<measurement::Key as StorageKey>::Contents`): the recorded outcome of a
measurement attempt, either estimates or a collector error. -/
abbrev MContents := Except Error Estimates

/-- Modelled from the spec: `index::Key::new(&rp)` derives the build key
deterministically from the run-plan's identity, so the key is embedded as
the plan itself. -/
structure IndexKey where
  plan : RunPlan
deriving DecidableEq

/-- Modelled from the spec: `measurement::Key::new(binary_hash, runner,
shield)` derives the measurement key from exactly the binary hash, the
runner identity and the shield identity. -/
structure MeasurementKey where
  binary_hash : BinHash
  runner : Option String
  shield : Option String
deriving DecidableEq

/-- Modelled from the spec: a persisted record may fail to decode when read
back; a corrupt record makes the lookup surface a storage error instead of
being treated as missing. -/
inductive Stored (α : Type) where
  | good (value : α)
  | corrupt
deriving DecidableEq

/-- Modelled from the spec: the directory-backed key-value store, one table
per key family (build keys and measurement keys). -/
structure Storage where
  indexStore : List (IndexKey × Stored BinHash)
  measStore : List (MeasurementKey × Stored MContents)
deriving DecidableEq

/-- Modelled from the spec: `index::Key::get(&dir)`: a read-only lookup
that returns the decoded binary hash when present, `none` when missing, and
a storage error when the record cannot be decoded. -/
def Storage.getIndex (s : Storage) (k : IndexKey) : Except String (Option BinHash) :=
  match alookup s.indexStore k with
  | none => .ok none
  | some (.good h) => .ok (some h)
  | some .corrupt => .error "storage error"

/-- Modelled from the spec: `measurement::Key::get(&dir)`, as
`Storage.getIndex` but for measurement records. -/
def Storage.getMeas (s : Storage) (k : MeasurementKey) : Except String (Option MContents) :=
  match alookup s.measStore k with
  | none => .ok none
  | some (.good c) => .ok (some c)
  | some .corrupt => .error "storage error"

/-- Modelled from the spec: writing a binary hash under a build key
(prepending shadows any earlier record, giving overwrite semantics). -/
def Storage.setIndex (s : Storage) (k : IndexKey) (h : BinHash) : Storage :=
  ⟨(k, .good h) :: s.indexStore, s.measStore⟩

/-- Modelled from the spec: writing a measurement outcome under a
measurement key. -/
def Storage.setMeas (s : Storage) (k : MeasurementKey) (c : MContents) : Storage :=
  ⟨s.indexStore, (k, .good c) :: s.measStore⟩

/-- Modelled from the spec: `storage::Entry`: either a value that is already
persisted (`Existing`) or a freshly computed key/contents pair that is not
yet durably stored (`New`; the storage location argument is the collector's
single data directory and is left implicit here). -/
inductive Entry (κ α : Type) where
  | Existing (value : α)
  | New (key : κ) (contents : α)
deriving DecidableEq

/-- Modelled from the spec: dereferencing an `Entry` yields the inner value;
for the index entries of the collector it is always present, because a `New`
index entry is only built from a successful build. -/
def Entry.value {κ α : Type} : Entry κ α → α
  | .Existing v => v
  | .New _ v => v

/-- Modelled from the spec: the outcome of reading and decoding one of the
criterion output files: the read itself may fail (`absent`), the decode may
fail (`malformed`), or a value is produced. -/
inductive FileState (α : Type) where
  | absent
  | malformed
  | wellFormed (value : α)
deriving DecidableEq

/-- Modelled from the spec: the two result files the collector reads from a
run-plan's criterion output directory: the mandatory `estimates.json`
(a `Statistic`) and the optional `metrics-estimates.json` (an `Estimates`
map). -/
structure BenchOutput where
  estimatesFile : FileState Statistic
  metricsEstimatesFile : FileState Estimates
deriving DecidableEq

/-- Modelled from the spec: the external collaborators of the collector:
`RunPlan::build` (produces a binary hash or fails), `RunPlan::exec` (runs
the benchmark), the criterion output files read back afterwards, and
`Toolchain::ensure_installed`. -/
structure Env where
  build : RunPlan → Except String BinHash
  execOutcome : RunPlan → Except String Unit
  benchOutput : RunPlan → BenchOutput
  install : Toolchain → Except String Unit

/-- Translated from `src/collector.rs`: external processes the collector
invokes while handling a run-plan, recorded as a trace. -/
inductive Event where
  | build (rp : RunPlan)
  | exec (rp : RunPlan)
deriving DecidableEq

/-- The build key for a run-plan, `index::Key::new(&rp)`. -/
def ikeyOf (rp : RunPlan) : IndexKey := ⟨rp⟩

/-- The measurement key for a binary hash and a run-plan,
`measurement::Key::new(binary_hash.to_vec(), rp.benchmark.runner.clone(),
rp.shield.clone())`. -/
def mkeyOf (binary_hash : BinHash) (rp : RunPlan) : MeasurementKey :=
  ⟨binary_hash, rp.benchmark.runner, rp.shield⟩

/-- Translated from `Collector::existing_binary_hash`. -/
def existing_binary_hash (s : Storage) (rp : RunPlan) :
    Except String (IndexKey × Option BinHash) :=
  match s.getIndex (ikeyOf rp) with
  | .error e => .error e
  | .ok found => .ok (ikeyOf rp, found)

/-- Translated from `Collector::compute_binary_hash`: reuse a cached hash
as `Existing`, otherwise invoke the external build step (whose failure
propagates) and wrap the fresh hash as `New`.  The second component records
the external processes invoked. -/
def compute_binary_hash (env : Env) (s : Storage) (rp : RunPlan) :
    Except String (Entry IndexKey BinHash) × List Event :=
  match existing_binary_hash s rp with
  | .error e => (.error e, [])
  | .ok (_, some e) => (.ok (.Existing e), [])
  | .ok (key, none) =>
    match env.build rp with
    | .error e => (.error e, [.build rp])
    | .ok h => (.ok (.New key h), [.build rp])

/-- Translated from `Collector::existing_estimates`. -/
def existing_estimates (s : Storage) (rp : RunPlan) (binary_hash : BinHash) :
    Except String (MeasurementKey × Option MContents) :=
  match s.getMeas (mkeyOf binary_hash rp) with
  | .error e => .error e
  | .ok found => .ok (mkeyOf binary_hash rp, found)

/-- Translated from `Collector::process`: read the mandatory
`estimates.json` (a read or parse failure propagates), insert it under the
fixed metric name `nanoseconds`, then try to read the optional
`metrics-estimates.json`: if it reads, its parse failure propagates and its
entries extend the map; if it does not read, the condition is tolerated.
The path derivation (toolchain target directory, crate and benchmark name)
is abstracted into `Env.benchOutput`. -/
def process (env : Env) (rp : RunPlan) : Except String Estimates :=
  match (env.benchOutput rp).estimatesFile with
  | .absent => .error "could not read estimates.json"
  | .malformed => .error "could not parse estimates.json"
  | .wellFormed runtime_estimates =>
    let metrics_estimates := Estimates.insert [] "nanoseconds" runtime_estimates
    match (env.benchOutput rp).metricsEstimatesFile with
    | .wellFormed estimates => .ok (Estimates.extend metrics_estimates estimates)
    | .malformed => .error "could not parse metrics-estimates.json"
    | .absent => .ok metrics_estimates

/-- Translated from `Collector::compute_estimates`: reuse any cached
measurement record as `Existing`; otherwise run the benchmark execution
and, if it succeeded, post-processing, mapping either failure to an `Error`
of kind `Run` with `num_retries` 0, `max_retries` `DEFAULT_MAX_RETRIES` and
`retryable` false, and wrap the outcome as `New`. -/
def compute_estimates (env : Env) (s : Storage) (rp : RunPlan) (binary_hash : BinHash) :
    Except String (Entry MeasurementKey MContents) × List Event :=
  match existing_estimates s rp binary_hash with
  | .error e => (.error e, [])
  | .ok (_, some e) => (.ok (.Existing e), [])
  | .ok (mkey, none) =>
    let res : MContents :=
      match env.execOutcome rp with
      | .error why => .error ⟨.Run why, 0, DEFAULT_MAX_RETRIES, false⟩
      | .ok _ =>
        match process env rp with
        | .error why => .error ⟨.Run why, 0, DEFAULT_MAX_RETRIES, false⟩
        | .ok est => .ok est
    (.ok (.New mkey res), [.exec rp])

/-- Translated from `Collector::plan_can_be_skipped_with_no_work`: true
exactly when a binary hash is cached for the plan and a cached measurement
for that hash exists and is an `Ok`. -/
def plan_can_be_skipped_with_no_work (s : Storage) (rp : RunPlan) : Except String Bool :=
  match existing_binary_hash s rp with
  | .error e => .error e
  | .ok (_, some hash) =>
    match existing_estimates s rp hash with
    | .error e => .error e
    | .ok (_, some (.ok _)) => .ok true
    | .ok _ => .ok false
  | .ok (_, none) => .ok false

/-- Modelled from the spec: `Entry::ensure_persisted` for index entries:
a no-op for `Existing`, a single write of the key/contents pair for `New`
(write I/O failures are not modelled, the store being in memory). -/
def persistIndexEntry (e : Entry IndexKey BinHash) (s : Storage) : Storage :=
  match e with
  | .Existing _ => s
  | .New k h => s.setIndex k h

/-- Renders a collector error as the generic error message that `?`
propagates from `ensure_persisted`. -/
def errMessage (e : Error) : String :=
  match e.kind with
  | .Run m => m
  | .PostProcess m => m

/-- Modelled from the spec: `Entry::ensure_persisted` for measurement
entries: a no-op for `Existing`; for `New` the key/outcome pair is written
exactly once, and the wrapped compute failure, if the outcome was an error,
is propagated as the overall result of the call. -/
def persistMeasurementEntry (e : Entry MeasurementKey MContents) (s : Storage) :
    Except String Unit × Storage :=
  match e with
  | .Existing _ => (.ok (), s)
  | .New k c =>
    let s1 := s.setMeas k c
    match c with
    | .ok _ => (.ok (), s1)
    | .error err => (.error (errMessage err), s1)

/-- Translated from `Collector::run`: Stage A (`compute_binary_hash`), then
Stage B (`compute_estimates` on the dereferenced hash), then persist the
Stage A entry and the Stage B entry, in that order; any `?` failure returns
early with the store in its state at that point. -/
def run (env : Env) (s : Storage) (rp : RunPlan) :
    Except String Unit × Storage × List Event :=
  match compute_binary_hash env s rp with
  | (.error e, ev) => (.error e, s, ev)
  | (.ok binary_hash, ev1) =>
    match compute_estimates env s rp binary_hash.value with
    | (.error e, ev2) => (.error e, s, ev1 ++ ev2)
    | (.ok estimates, ev2) =>
      let s1 := persistIndexEntry binary_hash s
      match persistMeasurementEntry estimates s1 with
      | (r, s2) => (r, s2, ev1 ++ ev2)

/-- Translated from the loop body of
`Collector::run_benches_with_toolchain`: run each plan in order, a failing
`run` returning early through `?`. -/
def runPlans (env : Env) (s : Storage) : List RunPlan →
    Except String Unit × Storage × List Event
  | [] => (.ok (), s, [])
  | rp :: rest =>
    match run env s rp with
    | (.error e, s1, ev) => (.error e, s1, ev)
    | (.ok _, s1, ev) =>
      match runPlans env s1 rest with
      | (r, s2, ev2) => (r, s2, ev ++ ev2)

/-- Translated from `Collector::run_benches_with_toolchain`: ensure the
toolchain is installed (failure propagates), then run every plan of the
batch in order. -/
def run_benches_with_toolchain (env : Env) (s : Storage) (toolchain : Toolchain)
    (run_plans : List RunPlan) : Except String Unit × Storage × List Event :=
  match env.install toolchain with
  | .error e => (.error e, s, [])
  | .ok _ => runPlans env s run_plans

/-- The skip check as the Boolean used for filtering: true exactly when the
check succeeded and answered false (the plan still needs work). -/
def needsWork (s : Storage) (rp : RunPlan) : Bool :=
  match plan_can_be_skipped_with_no_work s rp with
  | .ok b => !b
  | .error _ => false

/-- Translated from `needed.entry(toolchain).or_insert_with(Vec::new)
.push(rp)`: append the plan to the toolchain's vector, creating it when
absent. -/
def entryPush (m : List (Toolchain × List RunPlan)) (tc : Toolchain) (rp : RunPlan) :
    List (Toolchain × List RunPlan) :=
  match m with
  | [] => [(tc, [rp])]
  | (tc0, l) :: rest =>
    if tc0 = tc then (tc0, l ++ [rp]) :: rest else (tc0, l) :: entryPush rest tc rp

/-- Translated from the inner loop of `Collector::compute_builds_needed`:
push each plan of the group whose skip check answers false, propagating a
failing check. -/
def buildsNeededInner (s : Storage) (tc : Toolchain) :
    List RunPlan → List (Toolchain × List RunPlan) →
    Except String (List (Toolchain × List RunPlan))
  | [], acc => .ok acc
  | rp :: rest, acc =>
    match plan_can_be_skipped_with_no_work s rp with
    | .error e => .error e
    | .ok true => buildsNeededInner s tc rest acc
    | .ok false => buildsNeededInner s tc rest (entryPush acc tc rp)

/-- Translated from the outer loop of `Collector::compute_builds_needed`. -/
def buildsNeededGo (s : Storage) :
    List (Toolchain × List RunPlan) → List (Toolchain × List RunPlan) →
    Except String (List (Toolchain × List RunPlan))
  | [], acc => .ok acc
  | (tc, rps) :: rest, acc =>
    match buildsNeededInner s tc rps acc with
    | .error e => .error e
    | .ok acc1 => buildsNeededGo s rest acc1

/-- Translated from `Collector::compute_builds_needed`: starting from an
empty map, group the plans whose skip check answers false under their
toolchain (the `BTreeMap` input is embedded as an association list with
distinct toolchains). -/
def compute_builds_needed (s : Storage) (plans : List (Toolchain × List RunPlan)) :
    Except String (List (Toolchain × List RunPlan)) :=
  buildsNeededGo s plans []

/-! Concrete run-plans, stores and environments used to evaluate the
definitions at explicit inputs. -/

/-- A sample run-plan. -/
def rpEx : RunPlan := ⟨⟨some "rr", "bench1", "crate1"⟩, some "shield", some "stable"⟩

/-- A second sample run-plan, differing from `rpEx` in its benchmark name. -/
def rpEx2 : RunPlan := ⟨⟨some "rr", "bench2", "crate1"⟩, some "shield", some "stable"⟩

/-- A sample run-plan differing from `rpEx` only in its toolchain. -/
def rpExBeta : RunPlan := ⟨⟨some "rr", "bench1", "crate1"⟩, some "shield", some "beta"⟩

/-- A sample binary hash. -/
def hEx : BinHash := [1, 2, 3]

/-- A sample estimates map. -/
def estEx : Estimates := [("nanoseconds", ⟨100⟩)]

/-- A sample recorded run failure. -/
def errEx : Error := ⟨.Run "boom", 0, 2, false⟩

/-- A store holding a binary hash for `rpEx` and a successful measurement
for that hash. -/
def sEx : Storage :=
  ⟨[(ikeyOf rpEx, .good hEx)], [(mkeyOf hEx rpEx, .good (.ok estEx))]⟩

/-- A store holding a binary hash for `rpEx` whose only cached measurement
is a recorded failure. -/
def sFail : Storage :=
  ⟨[(ikeyOf rpEx, .good hEx)], [(mkeyOf hEx rpEx, .good (.error errEx))]⟩

/-- An environment in which every step succeeds: builds produce hash `[9]`,
execution succeeds, and the primary result file parses with no secondary
file present. -/
def envEx : Env :=
  ⟨fun _ => .ok [9], fun _ => .ok (), fun _ => ⟨.wellFormed ⟨7⟩, .absent⟩,
    fun _ => .ok ()⟩

/-- An environment in which the benchmark execution of `rpEx` fails with
message `boom` while everything else succeeds. -/
def envExecFails : Env :=
  ⟨fun _ => .ok [9],
    fun rp => if rp = rpEx then .error "boom" else .ok (),
    fun _ => ⟨.wellFormed ⟨7⟩, .absent⟩,
    fun _ => .ok ()⟩

/-! Theorems. -/

/-- C1: `plan_can_be_skipped_with_no_work` answers `true` if and only if a
binary hash is persisted for the plan's build key and a measurement is
persisted for the derived measurement key whose recorded outcome is a
success; in particular, when the cached measurement for the hash is a
recorded failure it answers `false`. -/
theorem skip_check_success_iff (s : Storage) (rp : RunPlan) :
    (plan_can_be_skipped_with_no_work s rp = Except.ok true ↔
      ∃ h, s.getIndex (ikeyOf rp) = Except.ok (some h) ∧
        ∃ est, s.getMeas (mkeyOf h rp) = Except.ok (some (Except.ok est))) ∧
    (∀ h e, s.getIndex (ikeyOf rp) = Except.ok (some h) →
      s.getMeas (mkeyOf h rp) = Except.ok (some (Except.error e)) →
      plan_can_be_skipped_with_no_work s rp = Except.ok false) := by
  unfold plan_can_be_skipped_with_no_work existing_binary_hash existing_estimates
  cases hIdx : s.getIndex (ikeyOf rp) with
  | error e => simp
  | ok found =>
    cases found with
    | none => simp
    | some h =>
      cases hM : s.getMeas (mkeyOf h rp) with
      | error e =>
        refine ⟨by simp [hM], ?_⟩
        intro h1 e1 hh hm2
        simp only [Except.ok.injEq, Option.some.injEq] at hh
        subst hh
        rw [hM] at hm2
        simp at hm2
      | ok mfound =>
        cases mfound with
        | none =>
          refine ⟨by simp [hM], ?_⟩
          intro h1 e1 hh hm2
          simp only [Except.ok.injEq, Option.some.injEq] at hh
          subst hh
          rw [hM] at hm2
          simp at hm2
        | some c =>
          cases c with
          | ok est =>
            refine ⟨by simp [hM], ?_⟩
            intro h1 e1 hh hm2
            simp only [Except.ok.injEq, Option.some.injEq] at hh
            subst hh
            rw [hM] at hm2
            simp at hm2
          | error err => simp [hM]

/-- Witness for C1: at the concrete store `sEx` the skip check answers
`true`. -/
theorem skip_check_success_iff_witness :
    plan_can_be_skipped_with_no_work sEx rpEx = Except.ok true :=
  (skip_check_success_iff sEx rpEx).1.mpr ⟨hEx, rfl, estEx, rfl⟩

/-- C2: evaluation of `compute_estimates` and `run` at a store whose only
cached measurement for the hash is a recorded failure: the cached failure
is wrapped as `Existing`, no benchmark execution happens (empty event
trace), and `run` returns success leaving the store unchanged — the work is
not retried from Stage B onward. -/
theorem cached_failure_reused_without_rerun :
    compute_estimates envEx sFail rpEx hEx =
      (Except.ok (Entry.Existing (Except.error errEx)), []) ∧
    run envEx sFail rpEx = (Except.ok (), sFail, []) :=
  ⟨rfl, rfl⟩

/-- C3: when no measurement is cached for the key, a failure of the
benchmark execution step or of the post-processing step is captured as an
`Error` of kind `Run` carrying the failure message, with `num_retries` 0,
`max_retries` 2 and `retryable` false, stored as the `New` entry's outcome;
`compute_estimates` itself returns `Ok`, not the failure. -/
theorem fresh_failure_recorded_as_new_entry (env : Env) (s : Storage) (rp : RunPlan)
    (binary_hash : BinHash) (msg : String)
    (hnone : s.getMeas (mkeyOf binary_hash rp) = Except.ok none)
    (hfail : env.execOutcome rp = Except.error msg ∨
      (env.execOutcome rp = Except.ok () ∧ process env rp = Except.error msg)) :
    compute_estimates env s rp binary_hash =
      (Except.ok (Entry.New (mkeyOf binary_hash rp)
        (Except.error ⟨ErrorKind.Run msg, 0, 2, false⟩)), [Event.exec rp]) := by
  unfold compute_estimates existing_estimates
  rw [hnone]
  rcases hfail with hf | ⟨hok, hp⟩
  · simp [hf, DEFAULT_MAX_RETRIES]
  · simp [hok, hp, DEFAULT_MAX_RETRIES]

/-- Witness for C3: at an environment whose execution of `rpEx` fails with
message `boom` and an empty store, the recorded outcome is the `Run` error
with the claimed retry bookkeeping. -/
theorem fresh_failure_recorded_as_new_entry_witness :
    compute_estimates envExecFails (⟨[], []⟩ : Storage) rpEx hEx =
      (Except.ok (Entry.New (mkeyOf hEx rpEx)
        (Except.error ⟨ErrorKind.Run "boom", 0, 2, false⟩)), [Event.exec rpEx]) :=
  fresh_failure_recorded_as_new_entry envExecFails ⟨[], []⟩ rpEx hEx "boom" rfl
    (Or.inl rfl)

/-- An environment whose external build step always fails. -/
def envBuildFails : Env :=
  ⟨fun _ => .error "nobuild", fun _ => .ok (),
    fun _ => ⟨.wellFormed ⟨7⟩, .absent⟩, fun _ => .ok ()⟩

/-- C6: when no binary hash is cached for the build key and the external
build step fails, `run` fails immediately with the build failure: the store
is unchanged (no entry and no cached failure record is produced) and the
trace shows the single build attempt and nothing else. -/
theorem build_failure_aborts_run (env : Env) (s : Storage) (rp : RunPlan) (msg : String)
    (hidx : s.getIndex (ikeyOf rp) = Except.ok none)
    (hbuild : env.build rp = Except.error msg) :
    run env s rp = (Except.error msg, s, [Event.build rp]) := by
  unfold run compute_binary_hash existing_binary_hash
  rw [hidx, hbuild]

/-- Witness for C6: at an empty store and a failing build, `run` fails with
the build message and persists nothing. -/
theorem build_failure_aborts_run_witness :
    run envBuildFails ⟨[], []⟩ rpEx =
      (Except.error "nobuild", (⟨[], []⟩ : Storage), [Event.build rpEx]) :=
  build_failure_aborts_run envBuildFails ⟨[], []⟩ rpEx "nobuild" rfl rfl

/-- Lookup in a list with no binding for the key answers `none`. -/
lemma alookup_eq_none {κ α : Type} [DecidableEq κ] (l : List (κ × α)) (k : κ)
    (h : k ∉ l.map Prod.fst) : alookup l k = none := by
  induction l with
  | nil => rfl
  | cons kv rest ih =>
    obtain ⟨k0, v0⟩ := kv
    simp only [List.map_cons, List.mem_cons, not_or] at h
    simp [alookup, h.1, ih h.2]

/-- Lookup after `Estimates.insert`: the inserted key answers the inserted
value, every other key is unchanged. -/
lemma alookup_insert (k k' : String) (v : Statistic) (m : Estimates) :
    alookup (Estimates.insert m k v) k' = if k' = k then some v else alookup m k' := by
  induction m with
  | nil => by_cases hk : k' = k <;> simp [Estimates.insert, alookup, hk]
  | cons kv rest ih =>
    obtain ⟨k0, v0⟩ := kv
    by_cases h1 : k < k0
    · by_cases hk : k' = k <;> simp [Estimates.insert, h1, alookup, hk]
    · by_cases h2 : k = k0
      · subst h2
        by_cases hk : k' = k <;> simp [Estimates.insert, h1, alookup, hk]
      · by_cases hk : k' = k
        · subst hk
          simp [Estimates.insert, h1, h2, alookup, ih]
        · by_cases hk0 : k' = k0 <;>
            simp [Estimates.insert, h1, h2, alookup, ih, hk, hk0, Ne.symm h2]

/-- Lookup after `Estimates.extend`: a key bound in the second map answers
its binding there, every other key falls back to the first map (for a
second map with distinct keys, as parsed maps have). -/
lemma alookup_extend (sec : Estimates) (hnd : (sec.map Prod.fst).Nodup) :
    ∀ (m : Estimates) (k : String),
      alookup (Estimates.extend m sec) k =
        match alookup sec k with
        | some v => some v
        | none => alookup m k := by
  induction sec with
  | nil => intro m k; simp [Estimates.extend, alookup]
  | cons kv rest ih =>
    obtain ⟨k0, v0⟩ := kv
    intro m k
    simp only [List.map_cons, List.nodup_cons] at hnd
    have hstep : Estimates.extend m ((k0, v0) :: rest) =
        Estimates.extend (Estimates.insert m k0 v0) rest := rfl
    rw [hstep, ih hnd.2]
    by_cases hk : k = k0
    · subst hk
      rw [alookup_eq_none rest k hnd.1]
      simp [alookup, alookup_insert]
    · cases hr : alookup rest k with
      | some v => simp [hr, alookup, hk]
      | none => simp [hr, alookup, hk, alookup_insert]

/-- C4: given a readable, well-formed primary record, `process` returns the
singleton `nanoseconds` map extended with every entry of the secondary
record when that one is readable (the primary key, the metric names being
disjoint, still answering the primary record), and exactly the singleton
map, with no error, when the secondary file is absent. -/
theorem process_estimates_merge (env : Env) (rp : RunPlan) (S1 : Statistic) :
    (∀ sec : Estimates,
      env.benchOutput rp = ⟨FileState.wellFormed S1, FileState.wellFormed sec⟩ →
      (sec.map Prod.fst).Nodup →
      alookup sec "nanoseconds" = none →
      process env rp =
          Except.ok (Estimates.extend (Estimates.insert [] "nanoseconds" S1) sec) ∧
      alookup (Estimates.extend (Estimates.insert [] "nanoseconds" S1) sec)
          "nanoseconds" = some S1 ∧
      ∀ k, k ≠ "nanoseconds" →
        alookup (Estimates.extend (Estimates.insert [] "nanoseconds" S1) sec) k =
          alookup sec k) ∧
    (env.benchOutput rp = ⟨FileState.wellFormed S1, FileState.absent⟩ →
      process env rp = Except.ok [("nanoseconds", S1)]) := by
  constructor
  · intro sec hb hnd hdisj
    refine ⟨?_, ?_, ?_⟩
    · unfold process
      rw [hb]
    · rw [alookup_extend sec hnd, hdisj]
      simp [alookup_insert]
    · intro k hk
      rw [alookup_extend sec hnd]
      cases hr : alookup sec k with
      | some v => simp
      | none => simp [alookup_insert, hk, alookup]
  · intro hb
    unfold process
    rw [hb]
    rfl

/-- An environment whose secondary metrics file is readable and holds one
entry. -/
def envSecondary : Env :=
  ⟨fun _ => .ok [9], fun _ => .ok (),
    fun _ => ⟨.wellFormed ⟨7⟩, .wellFormed [("instructions", ⟨5⟩)]⟩,
    fun _ => .ok ()⟩

/-- Witness for C4: with a one-entry secondary record, `process` merges it
with the primary; with no secondary record, `process` returns exactly the
singleton map. -/
theorem process_estimates_merge_witness :
    process envSecondary rpEx =
      Except.ok (Estimates.extend (Estimates.insert [] "nanoseconds" ⟨7⟩)
        [("instructions", ⟨5⟩)]) ∧
    process envEx rpEx = Except.ok [("nanoseconds", ⟨7⟩)] :=
  ⟨((process_estimates_merge envSecondary rpEx ⟨7⟩).1 [("instructions", ⟨5⟩)]
      rfl (by decide) rfl).1,
    (process_estimates_merge envEx rpEx ⟨7⟩).2 rfl⟩

/-- C10: a readable but unparsable secondary metrics file makes `process`
fail as a whole, while an absent secondary file yields success — only
absence is best-effort. -/
theorem malformed_metrics_secondary (env : Env) (rp : RunPlan) (S1 : Statistic) :
    (env.benchOutput rp = ⟨FileState.wellFormed S1, FileState.malformed⟩ →
      process env rp = Except.error "could not parse metrics-estimates.json") ∧
    (env.benchOutput rp = ⟨FileState.wellFormed S1, FileState.absent⟩ →
      process env rp = Except.ok [("nanoseconds", S1)]) := by
  constructor
  · intro hb
    unfold process
    rw [hb]
  · intro hb
    unfold process
    rw [hb]
    rfl

/-- An environment whose secondary metrics file reads but does not parse. -/
def envMalformed : Env :=
  ⟨fun _ => .ok [9], fun _ => .ok (),
    fun _ => ⟨.wellFormed ⟨7⟩, .malformed⟩, fun _ => .ok ()⟩

/-- Witness for C10: at the malformed-secondary environment `process`
errors; at the absent-secondary environment it succeeds. -/
theorem malformed_metrics_secondary_witness :
    process envMalformed rpEx = Except.error "could not parse metrics-estimates.json" ∧
    process envEx rpEx = Except.ok [("nanoseconds", ⟨7⟩)] :=
  ⟨(malformed_metrics_secondary envMalformed rpEx ⟨7⟩).1 rfl,
    (malformed_metrics_secondary envEx rpEx ⟨7⟩).2 rfl⟩

/-- C8: the measurement key is derived from exactly the triple of binary
hash, runner and shield: two plans agreeing on runner and shield (for
example, differing only in toolchain) derive the same key and the same
cache lookup for a given hash; the derivation is injective in the triple,
so distinct hashes or distinct environments give distinct keys; and a
successful measurement cached under one plan's key is reused as `Existing`
for the other with no execution. -/
theorem measurement_key_triple (s : Storage) :
    (∀ (rp1 rp2 : RunPlan) (h : BinHash),
      rp1.benchmark.runner = rp2.benchmark.runner → rp1.shield = rp2.shield →
      mkeyOf h rp1 = mkeyOf h rp2 ∧
      existing_estimates s rp1 h = existing_estimates s rp2 h) ∧
    (∀ (h1 h2 : BinHash) (rp1 rp2 : RunPlan), mkeyOf h1 rp1 = mkeyOf h2 rp2 →
      h1 = h2 ∧ rp1.benchmark.runner = rp2.benchmark.runner ∧
        rp1.shield = rp2.shield) ∧
    (∀ (env : Env) (rp1 rp2 : RunPlan) (h : BinHash) (est : Estimates),
      rp1.benchmark.runner = rp2.benchmark.runner → rp1.shield = rp2.shield →
      s.getMeas (mkeyOf h rp1) = Except.ok (some (Except.ok est)) →
      compute_estimates env s rp2 h =
        (Except.ok (Entry.Existing (Except.ok est)), [])) := by
  refine ⟨?_, ?_, ?_⟩
  · intro rp1 rp2 h hr hs
    have hk : mkeyOf h rp1 = mkeyOf h rp2 := by simp [mkeyOf, hr, hs]
    exact ⟨hk, by unfold existing_estimates; rw [hk]⟩
  · intro h1 h2 rp1 rp2 heq
    simp only [mkeyOf, MeasurementKey.mk.injEq] at heq
    exact ⟨heq.1, heq.2.1, heq.2.2⟩
  · intro env rp1 rp2 h est hr hs hm
    have hk : mkeyOf h rp2 = mkeyOf h rp1 := by simp [mkeyOf, hr, hs]
    unfold compute_estimates existing_estimates
    rw [hk, hm]

/-- Witness for C8: the successful measurement cached in `sEx` under
`rpEx`, whose toolchain is `stable`, is reused without execution for
`rpExBeta`, which differs from `rpEx` only in its toolchain. -/
theorem measurement_key_triple_witness :
    compute_estimates envEx sEx rpExBeta hEx =
      (Except.ok (Entry.Existing (Except.ok estEx)), []) :=
  (measurement_key_triple sEx).2.2 envEx rpEx rpExBeta hEx estEx rfl rfl rfl

/-- A store with no binary hash and a corrupt measurement record under the
key of the hash that `envEx` builds. -/
def sCorrupt : Storage := ⟨[], [(mkeyOf [9] rpEx, .corrupt)]⟩

/-- Counterexample to C9: at a store whose Stage B cache lookup fails with
a storage error, `run` computes a fresh binary hash (the build event is in
the trace) and returns the storage error with the store unchanged: the
fresh hash has not been persisted, its build key still resolving to
nothing. -/
theorem persist_order_counterexample :
    run envEx sCorrupt rpEx =
      (Except.error "storage error", sCorrupt, [Event.build rpEx]) ∧
    sCorrupt.getIndex (ikeyOf rpEx) = Except.ok none :=
  ⟨rfl, rfl⟩

/-- C9 amended: both `ensure_persisted` calls happen only after Stage B's
measurement resolution returns, so when Stage B's cache lookup fails with a
storage error the freshly computed binary hash has not been persisted:
`run` returns the storage error with the store unchanged. -/
theorem stage_b_storage_error_nothing_persisted (env : Env) (s : Storage)
    (rp : RunPlan) (h : BinHash) (emsg : String)
    (hidx : s.getIndex (ikeyOf rp) = Except.ok none)
    (hb : env.build rp = Except.ok h)
    (hm : s.getMeas (mkeyOf h rp) = Except.error emsg) :
    run env s rp = (Except.error emsg, s, [Event.build rp]) ∧
    s.getIndex (ikeyOf rp) = Except.ok none := by
  refine ⟨?_, hidx⟩
  unfold run compute_binary_hash existing_binary_hash compute_estimates existing_estimates
  rw [hidx, hb]
  simp only [Entry.value]
  rw [hm]
  rfl

/-- Witness for C9 amended: at the concrete corrupt store the fresh hash
is not persisted and `run` surfaces the storage error. -/
theorem stage_b_storage_error_nothing_persisted_witness :
    run envEx sCorrupt rpEx =
      (Except.error "storage error", sCorrupt, [Event.build rpEx]) ∧
    sCorrupt.getIndex (ikeyOf rpEx) = Except.ok none :=
  stage_b_storage_error_nothing_persisted envEx sCorrupt rpEx [9] "storage error"
    rfl rfl rfl

/-- The store left behind by the aborted batch of the C7 counterexample:
the first plan's fresh hash and its recorded failure. -/
def s7 : Storage :=
  ⟨[(ikeyOf rpEx, .good [9])],
    [(mkeyOf [9] rpEx, .good (.error ⟨.Run "boom", 0, 2, false⟩))]⟩

/-- Counterexample to C7: in the batch `[rpEx, rpEx2]` where `rpEx`'s
execution fails, `run_benches_with_toolchain` returns the failure after
the first plan: the trace holds no build and no execution of `rpEx2`, and
the final store has no entry for `rpEx2`'s build key — the second plan was
never processed. -/
theorem batch_abort_counterexample :
    run_benches_with_toolchain envExecFails ⟨[], []⟩ "stable" [rpEx, rpEx2] =
      (Except.error "boom", s7, [Event.build rpEx, Event.exec rpEx]) ∧
    Event.build rpEx2 ∉ [Event.build rpEx, Event.exec rpEx] ∧
    Event.exec rpEx2 ∉ [Event.build rpEx, Event.exec rpEx] ∧
    s7.getIndex (ikeyOf rpEx2) = Except.ok none :=
  ⟨rfl, by decide, by decide, rfl⟩

/-- A fresh Stage B execution failure: `run` persists the hash and the
recorded failure and then propagates the failure message. -/
lemma run_fresh_exec_failure (env : Env) (s : Storage) (rp : RunPlan)
    (h : BinHash) (msg : String)
    (hidx : s.getIndex (ikeyOf rp) = Except.ok none)
    (hb : env.build rp = Except.ok h)
    (hm : s.getMeas (mkeyOf h rp) = Except.ok none)
    (hexec : env.execOutcome rp = Except.error msg) :
    run env s rp =
      (Except.error msg,
        Storage.setMeas (Storage.setIndex s (ikeyOf rp) h) (mkeyOf h rp)
          (Except.error ⟨ErrorKind.Run msg, 0, 2, false⟩),
        [Event.build rp, Event.exec rp]) := by
  unfold run compute_binary_hash existing_binary_hash compute_estimates existing_estimates
  rw [hidx, hb]
  simp only [Entry.value]
  rw [hm, hexec]
  simp [persistIndexEntry, persistMeasurementEntry, errMessage, DEFAULT_MAX_RETRIES]

/-- Reading back a just-written measurement record. -/
lemma getMeas_setMeas_self (s : Storage) (k : MeasurementKey) (c : MContents) :
    (s.setMeas k c).getMeas k = Except.ok (some c) := by
  simp [Storage.getMeas, Storage.setMeas, alookup]

/-- C7 amended: when the first plan of a batch fails freshly at the
execution step, its binary hash and its failure are persisted (the failure
is recorded as the measurement outcome), but `ensure_persisted` propagates
the recorded failure, so the batch returns the failure and the remaining
plans are not processed — their events never appear in the trace. -/
theorem recorded_failure_aborts_batch (env : Env) (s : Storage) (tc : Toolchain)
    (rp : RunPlan) (rest : List RunPlan) (h : BinHash) (msg : String)
    (hins : env.install tc = Except.ok ())
    (hidx : s.getIndex (ikeyOf rp) = Except.ok none)
    (hb : env.build rp = Except.ok h)
    (hm : s.getMeas (mkeyOf h rp) = Except.ok none)
    (hexec : env.execOutcome rp = Except.error msg) :
    run_benches_with_toolchain env s tc (rp :: rest) =
      (Except.error msg,
        Storage.setMeas (Storage.setIndex s (ikeyOf rp) h) (mkeyOf h rp)
          (Except.error ⟨ErrorKind.Run msg, 0, 2, false⟩),
        [Event.build rp, Event.exec rp]) ∧
    (Storage.setMeas (Storage.setIndex s (ikeyOf rp) h) (mkeyOf h rp)
        (Except.error ⟨ErrorKind.Run msg, 0, 2, false⟩)).getMeas (mkeyOf h rp) =
      Except.ok (some (Except.error ⟨ErrorKind.Run msg, 0, 2, false⟩)) := by
  refine ⟨?_, getMeas_setMeas_self _ _ _⟩
  unfold run_benches_with_toolchain
  rw [hins]
  unfold runPlans
  rw [run_fresh_exec_failure env s rp h msg hidx hb hm hexec]

/-- Witness for C7 amended: the concrete aborted batch records the failure
and stops. -/
theorem recorded_failure_aborts_batch_witness :
    run_benches_with_toolchain envExecFails ⟨[], []⟩ "stable" [rpEx, rpEx2] =
      (Except.error "boom", s7, [Event.build rpEx, Event.exec rpEx]) ∧
    s7.getMeas (mkeyOf [9] rpEx) =
      Except.ok (some (Except.error ⟨.Run "boom", 0, 2, false⟩)) :=
  recorded_failure_aborts_batch envExecFails ⟨[], []⟩ "stable" rpEx [rpEx2] [9]
    "boom" rfl rfl rfl rfl rfl

/-- `entryPush` appends the plan to the pushed key's vector, creating a
singleton vector when the key was absent. -/
lemma alookup_entryPush_self (m : List (Toolchain × List RunPlan)) (tc : Toolchain)
    (rp : RunPlan) :
    alookup (entryPush m tc rp) tc = some ((alookup m tc).getD [] ++ [rp]) := by
  induction m with
  | nil => simp [entryPush, alookup]
  | cons kv rest ih =>
    obtain ⟨tc0, l⟩ := kv
    by_cases h : tc0 = tc
    · subst h
      simp [entryPush, alookup]
    · have h2 : ¬(tc = tc0) := fun hh => h hh.symm
      simp [entryPush, h, alookup, h2, ih]

/-- `entryPush` leaves every other key's binding unchanged. -/
lemma alookup_entryPush_other (m : List (Toolchain × List RunPlan)) (tc : Toolchain)
    (rp : RunPlan) (tc' : Toolchain) (h : tc' ≠ tc) :
    alookup (entryPush m tc rp) tc' = alookup m tc' := by
  induction m with
  | nil => simp [entryPush, alookup, h]
  | cons kv rest ih =>
    obtain ⟨tc0, l⟩ := kv
    by_cases h0 : tc0 = tc
    · subst h0
      simp [entryPush, alookup, h]
    · by_cases h1 : tc' = tc0 <;> simp [entryPush, h0, alookup, h1, ih]

/-- The skip check answers false exactly when `needsWork` holds. -/
lemma needsWork_iff (s : Storage) (rp : RunPlan) :
    needsWork s rp = true ↔
      plan_can_be_skipped_with_no_work s rp = Except.ok false := by
  unfold needsWork
  cases hskip : plan_can_be_skipped_with_no_work s rp with
  | error e => simp
  | ok b => cases b <;> simp

/-- The inner loop of `compute_builds_needed` over one toolchain's group:
other keys are untouched, and the group's key accumulates exactly the plans
whose skip check answers false, in order. -/
lemma buildsNeededInner_ok (s : Storage) (tc : Toolchain) :
    ∀ (rps : List RunPlan) (acc out : List (Toolchain × List RunPlan)),
      buildsNeededInner s tc rps acc = Except.ok out →
      (∀ tc', tc' ≠ tc → alookup out tc' = alookup acc tc') ∧
      (alookup out tc =
        if rps.filter (fun rp => needsWork s rp) = [] then alookup acc tc
        else some ((alookup acc tc).getD [] ++
          rps.filter (fun rp => needsWork s rp))) := by
  intro rps
  induction rps with
  | nil =>
    intro acc out hout
    simp only [buildsNeededInner, Except.ok.injEq] at hout
    subst hout
    simp
  | cons rp rest ih =>
    intro acc out hout
    simp only [buildsNeededInner] at hout
    cases hskip : plan_can_be_skipped_with_no_work s rp with
    | error e => rw [hskip] at hout; exact absurd hout (by simp)
    | ok b =>
      rw [hskip] at hout
      have hnw : needsWork s rp = !b := by simp [needsWork, hskip]
      cases b with
      | true =>
        have hfilter : (rp :: rest).filter (fun rp => needsWork s rp) =
            rest.filter (fun rp => needsWork s rp) := by
          simp [List.filter, hnw]
        rcases ih acc out hout with ⟨hother, hself⟩
        exact ⟨hother, by rw [hfilter]; exact hself⟩
      | false =>
        have hfilter : (rp :: rest).filter (fun rp => needsWork s rp) =
            rp :: rest.filter (fun rp => needsWork s rp) := by
          simp [List.filter, hnw]
        rcases ih (entryPush acc tc rp) out hout with ⟨hother, hself⟩
        refine ⟨?_, ?_⟩
        · intro tc' htc
          rw [hother tc' htc, alookup_entryPush_other acc tc rp tc' htc]
        · rw [hfilter]
          rw [hself, alookup_entryPush_self acc tc rp]
          cases hrest : rest.filter (fun rp => needsWork s rp) with
          | nil => simp
          | cons x xs => simp

/-- The outer loop of `compute_builds_needed`: with distinct toolchains in
the input, the output binding of each toolchain is its group's plans
filtered by `needsWork`, or its accumulator binding when none survive. -/
lemma buildsNeededGo_ok (s : Storage) :
    ∀ (groups acc out : List (Toolchain × List RunPlan)),
      buildsNeededGo s groups acc = Except.ok out →
      (groups.map Prod.fst).Nodup →
      ∀ tc, alookup out tc =
        match alookup groups tc with
        | none => alookup acc tc
        | some rps =>
          if rps.filter (fun rp => needsWork s rp) = [] then alookup acc tc
          else some ((alookup acc tc).getD [] ++
            rps.filter (fun rp => needsWork s rp)) := by
  intro groups
  induction groups with
  | nil =>
    intro acc out hout _ tc
    simp only [buildsNeededGo, Except.ok.injEq] at hout
    subst hout
    simp [alookup]
  | cons g rest ih =>
    obtain ⟨tc0, rps0⟩ := g
    intro acc out hout hnd tc
    simp only [List.map_cons, List.nodup_cons] at hnd
    simp only [buildsNeededGo] at hout
    cases hinner : buildsNeededInner s tc0 rps0 acc with
    | error e => rw [hinner] at hout; exact absurd hout (by simp)
    | ok acc1 =>
      rw [hinner] at hout
      rcases buildsNeededInner_ok s tc0 rps0 acc acc1 hinner with ⟨hother, hself⟩
      by_cases htc : tc = tc0
      · subst htc
        have hrest : alookup rest tc = none := alookup_eq_none rest tc hnd.1
        have := ih acc1 out hout hnd.2 tc
        rw [hrest] at this
        rw [this, hself]
        simp [alookup]
      · have := ih acc1 out hout hnd.2 tc
        rw [this]
        have hlk : alookup ((tc0, rps0) :: rest) tc = alookup rest tc := by
          simp [alookup, htc]
        rw [hlk]
        cases hr : alookup rest tc with
        | none => simp [hother tc htc]
        | some rps => simp [hother tc htc]

/-- C5: for a plan map with distinct toolchains, `compute_builds_needed`
binds a toolchain if and only if at least one of its plans is not
skippable, binds each such toolchain to exactly those of its plans whose
skip check answers false (mirroring the input grouping), and no skippable
plan appears anywhere in the output. -/
theorem compute_builds_needed_grouping (s : Storage)
    (plans out : List (Toolchain × List RunPlan))
    (hnd : (plans.map Prod.fst).Nodup)
    (hok : compute_builds_needed s plans = Except.ok out) :
    (∀ tc rps, alookup plans tc = some rps →
      alookup out tc =
        if rps.filter (fun rp => needsWork s rp) = [] then none
        else some (rps.filter (fun rp => needsWork s rp))) ∧
    (∀ tc, alookup plans tc = none → alookup out tc = none) ∧
    (∀ tc rps, alookup plans tc = some rps →
      ((∃ l, alookup out tc = some l) ↔
        ∃ rp ∈ rps, plan_can_be_skipped_with_no_work s rp = Except.ok false)) ∧
    (∀ tc l, alookup out tc = some l →
      ∀ rp ∈ l, plan_can_be_skipped_with_no_work s rp = Except.ok false) := by
  have hchar := buildsNeededGo_ok s plans [] out hok hnd
  have hmain : ∀ tc rps, alookup plans tc = some rps →
      alookup out tc =
        if rps.filter (fun rp => needsWork s rp) = [] then none
        else some (rps.filter (fun rp => needsWork s rp)) := by
    intro tc rps hp
    have := hchar tc
    rw [hp] at this
    simpa [alookup] using this
  have hnone : ∀ tc, alookup plans tc = none → alookup out tc = none := by
    intro tc hp
    have := hchar tc
    rw [hp] at this
    simpa [alookup] using this
  refine ⟨hmain, hnone, ?_, ?_⟩
  · intro tc rps hp
    rw [hmain tc rps hp]
    constructor
    · rintro ⟨l, hl⟩
      by_cases hf : rps.filter (fun rp => needsWork s rp) = []
      · rw [if_pos hf] at hl
        exact absurd hl (by simp)
      · rcases List.exists_mem_of_ne_nil _ hf with ⟨rp, hrp⟩
        rcases List.mem_filter.mp hrp with ⟨hmem, hnw⟩
        exact ⟨rp, hmem, (needsWork_iff s rp).mp hnw⟩
    · rintro ⟨rp, hmem, hskip⟩
      have hf : rps.filter (fun rp => needsWork s rp) ≠ [] := by
        intro hf
        have : needsWork s rp = true := (needsWork_iff s rp).mpr hskip
        have : rp ∈ rps.filter (fun rp => needsWork s rp) :=
          List.mem_filter.mpr ⟨hmem, this⟩
        rw [hf] at this
        exact absurd this (by simp)
      rw [if_neg hf]
      exact ⟨_, rfl⟩
  · intro tc l hl rp hrp
    cases hp : alookup plans tc with
    | none =>
      rw [hnone tc hp] at hl
      exact absurd hl (by simp)
    | some rps =>
      rw [hmain tc rps hp] at hl
      by_cases hf : rps.filter (fun rp => needsWork s rp) = []
      · rw [if_pos hf] at hl
        exact absurd hl (by simp)
      · rw [if_neg hf] at hl
        have hl2 : l = rps.filter (fun rp => needsWork s rp) := by
          injection hl with hl2
          exact hl2.symm
        subst hl2
        exact (needsWork_iff s rp).mp (List.mem_filter.mp hrp).2

/-- The concrete plan map used to evaluate `compute_builds_needed`. -/
def plansEx : List (Toolchain × List RunPlan) :=
  [("stable", [rpEx, rpEx2]), ("beta", [rpExBeta])]

/-- The output of `compute_builds_needed` at `sEx` and `plansEx`: `rpEx` is
skippable, `rpEx2` and `rpExBeta` are not. -/
def outEx : List (Toolchain × List RunPlan) :=
  [("stable", [rpEx2]), ("beta", [rpExBeta])]

/-- Witness for C5: at the concrete store and plan map, the `stable` group
of the output is exactly its non-skippable plans. -/
theorem compute_builds_needed_grouping_witness :
    alookup outEx "stable" =
      some (List.filter (fun rp => needsWork sEx rp) [rpEx, rpEx2]) := by
  have h := (compute_builds_needed_grouping sEx plansEx outEx (by decide) rfl).1
    "stable" [rpEx, rpEx2] rfl
  rw [h]
  decide

end Lolbench
